import Mathlib

/-!
Verification development for the WasslChat broadcast (bulk-messaging) engine.

This file shallowly embeds the broadcast subsystem of
`apps/api/src/modules/broadcasts/broadcasts.service.ts`:

* `calculateRecipients` — the recipient resolver (`BroadcastsService.calculateRecipients`);
* `create` — campaign creation (`BroadcastsService.create`), covering the
  empty-recipient rejection and the monthly plan-limit check;
* `pause` / `resume` / `cancel` / `send` — the lifecycle control operations;
* `handleSendBroadcast` — the batch dispatcher (`BroadcastProcessor.handleSendBroadcast`),
  modelled as a pure function over an explicit database state, a send oracle
  (the outcome of each gateway call) and a status oracle (the campaign status
  observed at each batch-boundary re-read, which a concurrent pause/cancel
  request may have changed).  The dispatcher returns the final database state
  together with the trace of every committed intermediate state, so that
  "at every point during a run" properties can be stated over the trace.

Database reads/writes are modelled as operations on explicit Lean structures.
JavaScript truthiness of the optional fields (`dto.filters && …`,
`filters.minSpent && …`, `broadcast.batchSize || 50`, `targetGroupIds?.length`)
is modelled faithfully: `0`, `undefined` and empty arrays are falsy.
-/

namespace WasslChat

/-- Campaign lifecycle status (`BroadcastStatus` enum of the database schema). -/
inductive BroadcastStatus
  | DRAFT | SCHEDULED | QUEUED | SENDING | PAUSED | COMPLETED | CANCELLED | FAILED
  deriving DecidableEq, Repr

/-- Per-recipient delivery status as written by the processor
(`broadcastRecipient.status`): rows start `PENDING` and are set to `SENT` or
`FAILED`. -/
inductive RecipientStatus
  | PENDING | SENT | FAILED
  deriving DecidableEq, Repr

/-! ## Recipient resolver (`BroadcastsService.calculateRecipients`) -/

/-- A contact row, with the fields the resolver's queries touch.  `phone`,
`lastContactAt` and `governorate` are nullable columns. -/
structure Contact where
  id : Nat
  tenantId : Nat
  phone : Option Nat
  tags : List Nat
  ordersCount : Nat
  totalSpent : Int
  lastContactAt : Option Int
  governorate : Option Nat
  deriving DecidableEq, Repr

/-- A `contactGroupMember` row. -/
structure GroupMember where
  groupId : Nat
  contactId : Nat
  deriving DecidableEq, Repr

/-- The `filters` object of a `CreateBroadcastDto`; every field is optional. -/
structure Filters where
  hasOrders : Option Bool := none
  minSpent : Option Int := none
  maxSpent : Option Int := none
  lastContactAfter : Option Int := none
  lastContactBefore : Option Int := none
  governorate : Option (List Nat) := none
  deriving DecidableEq, Repr

/-- The targeting rule of a campaign-creation DTO. -/
inductive TargetType
  | ALL | GROUP | TAG | CUSTOM
  deriving DecidableEq, Repr

/-- The targeting part of `CreateBroadcastDto`;  `none` models an absent
(`undefined`) field. -/
structure TargetDto where
  targetType : TargetType
  targetGroupIds : Option (List Nat) := none
  targetTags : Option (List Nat) := none
  targetContactIds : Option (List Nat) := none
  filters : Option Filters := none
  deriving DecidableEq, Repr

/-- The contact/group tables the resolver reads. -/
structure Db where
  contacts : List Contact
  groupMembers : List GroupMember
  deriving DecidableEq, Repr

/-- JavaScript truthiness of an optional number: `undefined` and `0` are falsy. -/
def truthyInt : Option Int → Bool
  | none => false
  | some v => v != 0

/-- `totalSpent: { gte: filters.minSpent }`, applied only when `minSpent` is truthy. -/
def spentGE (c : Contact) : Option Int → Bool
  | none => true
  | some v => if v = 0 then true else decide (v ≤ c.totalSpent)

/-- `totalSpent: { lte: filters.maxSpent }`, applied only when `maxSpent` is truthy. -/
def spentLE (c : Contact) : Option Int → Bool
  | none => true
  | some v => if v = 0 then true else decide (c.totalSpent ≤ v)

/-- `lastContactAt: { gte: d }`: a NULL column never satisfies a comparison. -/
def lastContactGE (c : Contact) : Option Int → Bool
  | none => true
  | some d => match c.lastContactAt with
    | some t => decide (d ≤ t)
    | none => false

/-- `lastContactAt: { lte: d }`: a NULL column never satisfies a comparison. -/
def lastContactLE (c : Contact) : Option Int → Bool
  | none => true
  | some d => match c.lastContactAt with
    | some t => decide (t ≤ d)
    | none => false

/-- `governorate: { in: gs }`, applied only when the array is present and nonempty. -/
def govIn (c : Contact) : Option (List Nat) → Bool
  | none => true
  | some gs =>
    if gs.isEmpty then true
    else match c.governorate with
      | some g => gs.contains g
      | none => false

/-- The conjunction of the optional spread conditions of the resolver's
filtered query (`...(filters.hasOrders && …)` etc.). -/
def filterCond (f : Filters) (c : Contact) : Bool :=
  (if f.hasOrders = some true then decide (0 < c.ordersCount) else true)
  && spentGE c f.minSpent
  && spentLE c f.maxSpent
  && lastContactGE c f.lastContactAfter
  && lastContactLE c f.lastContactBefore
  && govIn c f.governorate

/-- First-occurrence deduplication, as performed by `[...new Set(xs)]`. -/
def jsSetDedup : List Nat → List Nat
  | [] => []
  | x :: xs => x :: jsSetDedup (xs.filter (fun y => y ≠ x))
termination_by l => l.length
decreasing_by
  simp only [List.length_cons]
  exact Nat.lt_succ_of_le (List.length_filter_le _ _)

/-- The `switch (dto.targetType)` of `calculateRecipients`, computing the
source's local `contactIds`. -/
def baseContactIds (db : Db) (tenantId : Nat) (dto : TargetDto) : List Nat :=
  match dto.targetType with
  | .ALL =>
    (db.contacts.filter (fun c => c.tenantId == tenantId && c.phone.isSome)).map Contact.id
  | .GROUP =>
    match dto.targetGroupIds with
    | some gids =>
      if gids.isEmpty then []
      else jsSetDedup
        ((db.groupMembers.filter (fun m => gids.contains m.groupId)).map GroupMember.contactId)
    | none => []
  | .TAG =>
    match dto.targetTags with
    | some ts =>
      if ts.isEmpty then []
      else (db.contacts.filter
        (fun c => c.tenantId == tenantId && c.tags.any (fun t => ts.contains t))).map Contact.id
    | none => []
  | .CUSTOM => dto.targetContactIds.getD []

/-- Shallow embedding of `BroadcastsService.calculateRecipients`.  The switch
selects a base list of contact ids; a present `filters` object (even an empty
one) triggers a second query that re-filters by tenant, non-null phone and the
optional conditions — but only when the base list is nonempty. -/
def calculateRecipients (db : Db) (tenantId : Nat) (dto : TargetDto) : List Nat :=
  let contactIds : List Nat := baseContactIds db tenantId dto
  match dto.filters with
  | some f =>
    if contactIds.isEmpty then contactIds
    else (db.contacts.filter (fun c =>
        contactIds.contains c.id && c.tenantId == tenantId && c.phone.isSome
          && filterCond f c)).map Contact.id
  | none => contactIds

/-! ## Campaign creation (`BroadcastsService.create`) -/

/-- The two `BadRequestException`s campaign creation can throw. -/
inductive CreateError
  | noRecipients
  | monthlyLimitExceeded
  deriving DecidableEq, Repr

/-- The campaign record plus recipient rows persisted by the single
`broadcast.create` call (nested `createMany`). -/
structure CreatedBroadcast where
  totalRecipients : Nat
  rowContactIds : List Nat
  batchSize : Nat
  batchDelayMs : Nat
  status : BroadcastStatus
  deriving DecidableEq, Repr

/-- JavaScript `o || d` on an optional number (`0` falls through to the default). -/
def jsOrNat (o : Option Nat) (d : Nat) : Nat :=
  match o with
  | some v => if v = 0 then d else v
  | none => d

/-- Shallow embedding of `BroadcastsService.create`: resolve recipients, reject
an empty resolution, reject a breach of the plan's monthly recipient-row limit
(`broadcastsLimit = -1` means unlimited), otherwise persist the campaign with
its recipient rows in one write.  An `Except.error` result models the exception
thrown before any write: nothing is persisted. -/
def create (db : Db) (broadcastsLimit : Int) (monthlyCount : Nat) (tenantId : Nat)
    (dto : TargetDto) (scheduled : Bool) (batchSize batchDelayMs : Option Nat) :
    Except CreateError CreatedBroadcast :=
  let recipientIds := calculateRecipients db tenantId dto
  if recipientIds.length = 0 then
    .error .noRecipients
  else if broadcastsLimit ≠ -1 ∧ broadcastsLimit < (monthlyCount : Int) + recipientIds.length then
    .error .monthlyLimitExceeded
  else
    .ok { totalRecipients := recipientIds.length
          rowContactIds := recipientIds
          batchSize := jsOrNat batchSize 50
          batchDelayMs := jsOrNat batchDelayMs 1000
          status := if scheduled then .SCHEDULED else .DRAFT }

/-! ## Lifecycle control operations

Each operation checks the campaign's current status and either throws a
`BadRequestException` (modelled as `Except.error`, thrown before any write, so
the stored status is unchanged) or performs its single status update. -/

/-- The `BadRequestException` a control operation throws on an invalid
transition request. -/
inductive ControlError
  | badRequest
  deriving DecidableEq, Repr

/-- Shallow embedding of `BroadcastsService.pause`. -/
def pause (status : BroadcastStatus) : Except ControlError BroadcastStatus :=
  if status ≠ .SENDING then .error .badRequest
  else .ok .PAUSED

/-- Shallow embedding of `BroadcastsService.resume`. -/
def resume (status : BroadcastStatus) : Except ControlError BroadcastStatus :=
  if status ≠ .PAUSED then .error .badRequest
  else .ok .SENDING

/-- Shallow embedding of `BroadcastsService.cancel`. -/
def cancel (status : BroadcastStatus) : Except ControlError BroadcastStatus :=
  if status ∉ ([.QUEUED, .SENDING, .PAUSED, .SCHEDULED] : List BroadcastStatus) then
    .error .badRequest
  else .ok .CANCELLED

/-- Shallow embedding of `BroadcastsService.send` (send-now). -/
def send (status : BroadcastStatus) : Except ControlError BroadcastStatus :=
  if status ∉ ([.DRAFT, .SCHEDULED] : List BroadcastStatus) then
    .error .badRequest
  else .ok .QUEUED

/-- The stored campaign status after a control request: an `Except.error`
result models the exception thrown before the status update, so the stored
status is unchanged. -/
def applyControl (f : BroadcastStatus → Except ControlError BroadcastStatus)
    (status : BroadcastStatus) : BroadcastStatus :=
  match f status with
  | .ok st => st
  | .error _ => status

/-! ## Batch dispatcher (`BroadcastProcessor.handleSendBroadcast`)

The dispatcher's interactions are modelled as follows.

* A `Row` is a `broadcastRecipient` row (`createdAt` is the insertion
  timestamp used by the `orderBy`).
* A `DbState` is one committed database state: the broadcast record together
  with its recipient rows.
* The outcome of `sendMessage` for a given contact is given by an oracle
  `ok : Nat → Bool` indexed by the row id (`sendMessage` catches every gateway
  error and returns `success: false`, so a single `Bool` is faithful).
* The status read back at the start of each batch iteration is given by an
  oracle `obs : Nat → BroadcastStatus` indexed by the batch number, modelling
  a concurrent pause/cancel writer.
* Every database write appends the resulting committed state to a trace. -/

/-- A persisted `broadcastRecipient` row. -/
structure Row where
  id : Nat
  createdAt : Nat
  status : RecipientStatus
  deriving DecidableEq, Repr

/-- The broadcast record's fields the dispatcher reads and writes. -/
structure BCast where
  status : BroadcastStatus
  sentCount : Nat
  failedCount : Nat
  totalRecipients : Nat
  batchSize : Nat
  deriving DecidableEq, Repr

/-- One committed database state: the broadcast record and its recipient rows. -/
structure DbState where
  bcast : BCast
  rows : List Row
  deriving DecidableEq, Repr

/-- `broadcastRecipient.update({ where: { id }, data: { status } })`: rewrite
the status of the row(s) with the given id. -/
def setRow (rows : List Row) (rid : Nat) (st : RecipientStatus) : List Row :=
  rows.map (fun r => if r.id = rid then { r with status := st } else r)

/-- The status of the row with a given id, as stored. -/
def rowStatus (rows : List Row) (rid : Nat) : Option RecipientStatus :=
  (rows.find? (fun r => r.id == rid)).map Row.status

/-- Bool test for a pending row. -/
def Row.isPending (r : Row) : Bool := r.status = .PENDING

/-- Number of PENDING rows — the derived `pendingCount` of the conservation
invariant. -/
def countPending (rows : List Row) : Nat := (rows.filter Row.isPending).length

/-- `broadcast.batchSize || 50`: a zero (or missing, stored as 0) batch size
falls back to 50, so the effective batch size is always positive. -/
def effBatchSize (n : Nat) : Nat := if n = 0 then 50 else n

/-- Split a list into consecutive chunks of size `max 1 n`, mirroring the
loop `for (i = 0; i < recipients.length; i += batchSize)` with its
`slice(i, i + batchSize)`. -/
def chunks (n : Nat) (l : List Row) : List (List Row) :=
  match l with
  | [] => []
  | x :: xs => (x :: xs).take (max 1 n) :: chunks n ((x :: xs).drop (max 1 n))
termination_by l.length
decreasing_by
  simp only [List.length_drop, List.length_cons]
  omega

/-- The `findMany` that claims the batch's source rows: PENDING rows ordered
by `createdAt` ascending.  The database guarantees only a createdAt-sorted
permutation of the PENDING rows (see `validClaimOrder`) and fixes no relative
order for rows sharing a `createdAt`; since the dispatcher model needs one
concrete order, this picks the stable sort of the stored order as a
representative.  The dispatcher theorems that use it (row outcomes, counter
conservation, pause semantics, batch counts) do not depend on which
createdAt-sorted permutation the database returns. -/
def claimPending (rows : List Row) : List Row :=
  List.insertionSort (fun a b => a.createdAt ≤ b.createdAt) (rows.filter Row.isPending)

/-- What the claim query
(`findMany({ where: { status: 'PENDING' }, orderBy: { createdAt: 'asc' } })`)
actually guarantees about its result: some permutation of the PENDING rows
that is non-decreasing in `createdAt`.  The relative order of rows with equal
`createdAt` — and all of one campaign's rows get the same default timestamp
from the single nested `createMany` — is not specified by the database. -/
def validClaimOrder (rows claimed : List Row) : Prop :=
  claimed.Perm (rows.filter Row.isPending)
  ∧ claimed.Pairwise (fun a b => a.createdAt ≤ b.createdAt)

/-- Process the rows of one claimed batch sequentially (the per-row
status-update loop that follows the `Promise.allSettled` fan-out): each row is
set to SENT or FAILED according to the send oracle and the in-memory
`sentCount` / `failedCount` are bumped; the broadcast record itself is not
touched.  Returns the final state, the updated in-memory counters and the
trace of committed states (one per row update). -/
def processRowsInBatch (ok : Nat → Bool) :
    List Row → DbState → Nat → Nat → DbState × Nat × Nat × List DbState
  | [], db, ms, mf => (db, ms, mf, [])
  | r :: rest, db, ms, mf =>
    if ok r.id then
      let db1 : DbState := { db with rows := setRow db.rows r.id .SENT }
      let out := processRowsInBatch ok rest db1 (ms + 1) mf
      (out.1, out.2.1, out.2.2.1, db1 :: out.2.2.2)
    else
      let db1 : DbState := { db with rows := setRow db.rows r.id .FAILED }
      let out := processRowsInBatch ok rest db1 ms (mf + 1)
      (out.1, out.2.1, out.2.2.1, db1 :: out.2.2.2)

/-- The per-batch counter write (`broadcast.update({ data: { sentCount,
failedCount } })`) that follows a batch's row updates. -/
def boundaryWrite (step : DbState × Nat × Nat × List DbState) : DbState :=
  { step.1 with bcast := { step.1.bcast with
      sentCount := step.2.1, failedCount := step.2.2.1 } }

/-- The batch loop.  Before each batch the campaign status is re-read
(oracle `obs` at the batch index); a PAUSED or CANCELLED observation stops the
loop without claiming further batches.  After a batch's row updates, the
broadcast record's counters are written once.  Returns the final state, the
in-memory counters, the trace, and whether the loop ran to completion. -/
def runBatches (ok : Nat → Bool) (obs : Nat → BroadcastStatus) :
    List (List Row) → Nat → DbState → Nat → Nat →
    DbState × Nat × Nat × List DbState × Bool
  | [], _, db, ms, mf => (db, ms, mf, [], true)
  | batch :: rest, k, db, ms, mf =>
    if obs k = .PAUSED ∨ obs k = .CANCELLED then
      (db, ms, mf, [], false)
    else
      let step := processRowsInBatch ok batch db ms mf
      let out := runBatches ok obs rest (k + 1) (boundaryWrite step) step.2.1 step.2.2.1
      (out.1, out.2.1, out.2.2.1, step.2.2.2 ++ boundaryWrite step :: out.2.2.2.1,
        out.2.2.2.2)

/-- The `status: 'SENDING'` update written before the loop. -/
def sendingWrite (db : DbState) : DbState :=
  { db with bcast := { db.bcast with status := .SENDING } }

/-- The final `status: 'COMPLETED'` update with the final counters. -/
def completionWrite (out : DbState × Nat × Nat × List DbState × Bool) : DbState :=
  { out.1 with bcast := { out.1.bcast with
      status := .COMPLETED, sentCount := out.2.1, failedCount := out.2.2.1 } }

/-- Shallow embedding of `BroadcastProcessor.handleSendBroadcast`: skip a
CANCELLED campaign, write status SENDING, claim the PENDING rows ordered by
creation time, process them in batches, and on normal loop completion write
status COMPLETED with the final counters.  The returned trace starts with the
initial committed state and records each write. -/
def handleSendBroadcast (ok : Nat → Bool) (obs : Nat → BroadcastStatus)
    (db : DbState) : DbState × List DbState :=
  if db.bcast.status = .CANCELLED then (db, [db])
  else
    let out := runBatches ok obs
      (chunks (effBatchSize db.bcast.batchSize) (claimPending db.rows))
      0 (sendingWrite db) db.bcast.sentCount db.bcast.failedCount
    if out.2.2.2.2 then
      (completionWrite out, db :: sendingWrite db :: out.2.2.2.1 ++ [completionWrite out])
    else
      (out.1, db :: sendingWrite db :: out.2.2.2.1)

/-! ## Concrete example inputs used by witnesses and counterexamples -/

/-- A fresh PENDING recipient row with id and creation timestamp `i`. -/
def freshRow (i : Nat) : Row := { id := i, createdAt := i, status := .PENDING }

/-- A queued campaign with five pending recipients and batch size 2
(the 5-recipient scenario of the spec). -/
def exDb5 : DbState :=
  { bcast := { status := .QUEUED, sentCount := 0, failedCount := 0,
               totalRecipients := 5, batchSize := 2 },
    rows := [freshRow 0, freshRow 1, freshRow 2, freshRow 3, freshRow 4] }

/-- A queued campaign with a single pending recipient. -/
def exDb1 : DbState :=
  { bcast := { status := .QUEUED, sentCount := 0, failedCount := 0,
               totalRecipients := 1, batchSize := 2 },
    rows := [freshRow 0] }

/-- A queued campaign with two pending recipients in one batch. -/
def exDb2 : DbState :=
  { bcast := { status := .QUEUED, sentCount := 0, failedCount := 0,
               totalRecipients := 2, batchSize := 2 },
    rows := [freshRow 0, freshRow 1] }

/-- The committed state, in the one-recipient successful run, right after the
row's own update and before the batch's counter write. -/
def exMidState1 : DbState :=
  { bcast := { status := .SENDING, sentCount := 0, failedCount := 0,
               totalRecipients := 1, batchSize := 2 },
    rows := [{ id := 0, createdAt := 0, status := .SENT }] }

/-- The committed state, in the two-recipient successful run, right after the
first row's update: one row is terminal yet the counters still read zero. -/
def exMidState2 : DbState :=
  { bcast := { status := .SENDING, sentCount := 0, failedCount := 0,
               totalRecipients := 2, batchSize := 2 },
    rows := [{ id := 0, createdAt := 0, status := .SENT }, freshRow 1] }

/-- A pending recipient row with the same creation timestamp as `exTieB`, as
one campaign's rows receive from the single nested `createMany`. -/
def exTieA : Row := { id := 0, createdAt := 7, status := .PENDING }

/-- A pending recipient row with the same creation timestamp as `exTieA`. -/
def exTieB : Row := { id := 1, createdAt := 7, status := .PENDING }

/-- A contact without a phone number. -/
def exNoPhone : Contact :=
  { id := 1, tenantId := 0, phone := none, tags := [], ordersCount := 0,
    totalSpent := 0, lastContactAt := none, governorate := none }

/-- A contact with a phone number. -/
def exWithPhone : Contact :=
  { id := 2, tenantId := 0, phone := some 100, tags := [], ordersCount := 0,
    totalSpent := 0, lastContactAt := none, governorate := none }

/-- A two-contact database, one contact lacking a phone. -/
def exContactsDb : Db :=
  { contacts := [exNoPhone, exWithPhone], groupMembers := [] }

/-- A CUSTOM targeting rule naming the phoneless contact twice, with no
filters object. -/
def exDtoCustomDup : TargetDto :=
  { targetType := .CUSTOM, targetContactIds := some [1, 1] }

/-- An ALL targeting rule with no filters. -/
def exDtoAll : TargetDto := { targetType := .ALL }

/-! ## Helper lemmas about row updates -/

theorem rowStatus_cons (x : Row) (xs : List Row) (rid : Nat) :
    rowStatus (x :: xs) rid = if x.id = rid then some x.status else rowStatus xs rid := by
  by_cases h : x.id = rid
  · rw [if_pos h]
    unfold rowStatus
    rw [List.find?_cons_of_pos _ (by simp [h])]
    rfl
  · rw [if_neg h]
    unfold rowStatus
    rw [List.find?_cons_of_neg _ (by simp [h])]

theorem setRow_cons (x : Row) (xs : List Row) (rid : Nat) (st : RecipientStatus) :
    setRow (x :: xs) rid st
      = (if x.id = rid then { x with status := st } else x) :: setRow xs rid st := rfl

theorem map_id_setRow (rows : List Row) (rid : Nat) (st : RecipientStatus) :
    (setRow rows rid st).map Row.id = rows.map Row.id := by
  induction rows with
  | nil => rfl
  | cons x xs ih =>
    rw [setRow_cons, List.map_cons, List.map_cons, ih]
    by_cases h : x.id = rid <;> simp [h]

theorem setRow_not_mem {rows : List Row} {rid : Nat} (st : RecipientStatus)
    (h : rid ∉ rows.map Row.id) : setRow rows rid st = rows := by
  induction rows with
  | nil => rfl
  | cons x xs ih =>
    rw [List.map_cons, List.mem_cons, not_or] at h
    rw [setRow_cons, if_neg (fun hx => h.1 hx.symm), ih h.2]

theorem rowStatus_setRow_ne {rid rid' : Nat} (rows : List Row) (st : RecipientStatus)
    (h : rid ≠ rid') : rowStatus (setRow rows rid' st) rid = rowStatus rows rid := by
  induction rows with
  | nil => rfl
  | cons x xs ih =>
    rw [setRow_cons, rowStatus_cons, rowStatus_cons]
    by_cases hx : x.id = rid'
    · have hxr : ¬ x.id = rid := fun hc => h (by rw [← hc, hx])
      rw [if_pos hx,
        if_neg (show ¬ ({ x with status := st } : Row).id = rid from hxr),
        if_neg hxr, ih]
    · rw [if_neg hx]
      by_cases hr : x.id = rid
      · rw [if_pos hr, if_pos hr]
      · rw [if_neg hr, if_neg hr, ih]

theorem rowStatus_setRow_self {rows : List Row} {rid : Nat} (st : RecipientStatus)
    (h : rid ∈ rows.map Row.id) : rowStatus (setRow rows rid st) rid = some st := by
  induction rows with
  | nil => simp at h
  | cons x xs ih =>
    rw [setRow_cons, rowStatus_cons]
    by_cases hx : x.id = rid
    · rw [if_pos hx]
      simp [hx]
    · rw [if_neg hx, if_neg hx]
      rw [List.map_cons, List.mem_cons] at h
      rcases h with h | h
      · exact absurd h.symm hx
      · exact ih h

theorem countPending_cons (x : Row) (xs : List Row) :
    countPending (x :: xs) = (if x.isPending then 1 else 0) + countPending xs := by
  unfold countPending
  rw [List.filter_cons]
  by_cases h : x.isPending <;> simp [h, Nat.add_comm]

theorem countPending_setRow_le (rows : List Row) (rid : Nat) {st : RecipientStatus}
    (h : st ≠ .PENDING) : countPending (setRow rows rid st) ≤ countPending rows := by
  induction rows with
  | nil => exact Nat.le_refl _
  | cons x xs ih =>
    rw [setRow_cons, countPending_cons, countPending_cons]
    by_cases hx : x.id = rid
    · rw [if_pos hx]
      have hnp : ({ x with status := st } : Row).isPending = false := by
        simp [Row.isPending, h]
      rw [hnp]
      have h1 := ih
      by_cases hp : x.isPending <;> simp [hp] <;> omega
    · rw [if_neg hx]
      exact Nat.add_le_add_left ih _

theorem rowStatus_of_mem_nodup {rows : List Row} {r : Row}
    (hnd : (rows.map Row.id).Nodup) (h : r ∈ rows) :
    rowStatus rows r.id = some r.status := by
  induction rows with
  | nil => simp at h
  | cons x xs ih =>
    rw [List.map_cons, List.nodup_cons] at hnd
    rw [rowStatus_cons]
    rcases List.mem_cons.mp h with h | h
    · rw [if_pos (by rw [h])]
      rw [h]
    · by_cases hx : x.id = r.id
      · exact absurd (hx ▸ List.mem_map_of_mem Row.id h) hnd.1
      · rw [if_neg hx]
        exact ih hnd.2 h

theorem countPending_setRow_eq {rows : List Row} {rid : Nat} {st : RecipientStatus}
    (hnd : (rows.map Row.id).Nodup) (hst : rowStatus rows rid = some .PENDING)
    (h : st ≠ .PENDING) : countPending (setRow rows rid st) + 1 = countPending rows := by
  induction rows with
  | nil => simp [rowStatus] at hst
  | cons x xs ih =>
    rw [List.map_cons, List.nodup_cons] at hnd
    rw [rowStatus_cons] at hst
    rw [setRow_cons, countPending_cons, countPending_cons]
    by_cases hx : x.id = rid
    · rw [if_pos hx] at *
      have hxs : x.status = .PENDING := Option.some_inj.mp hst
      have hxp : x.isPending = true := by simp [Row.isPending, hxs]
      have hnp : ({ x with status := st } : Row).isPending = false := by
        simp [Row.isPending, h]
      rw [hnp, hxp, setRow_not_mem st (hx ▸ hnd.1)]
      simp <;> omega
    · rw [if_neg hx] at *
      have h1 := ih hnd.2 hst
      by_cases hp : x.isPending <;> simp [hp] <;> omega

/-! ## Lemmas about one batch's row-update loop -/

theorem batch_bcast (ok : Nat → Bool) (batch : List Row) (db : DbState) (ms mf : Nat) :
    (processRowsInBatch ok batch db ms mf).1.bcast = db.bcast := by
  induction batch generalizing db ms mf with
  | nil => rfl
  | cons r rest ih =>
    by_cases h : ok r.id
    · simp only [processRowsInBatch, h, if_true]
      exact ih _ _ _
    · simp only [processRowsInBatch, h, Bool.false_eq_true, if_false]
      exact ih _ _ _

theorem batch_map_id (ok : Nat → Bool) (batch : List Row) (db : DbState) (ms mf : Nat) :
    (processRowsInBatch ok batch db ms mf).1.rows.map Row.id = db.rows.map Row.id := by
  induction batch generalizing db ms mf with
  | nil => rfl
  | cons r rest ih =>
    by_cases h : ok r.id
    · simp only [processRowsInBatch, h, if_true]
      rw [ih]
      exact map_id_setRow _ _ _
    · simp only [processRowsInBatch, h, Bool.false_eq_true, if_false]
      rw [ih]
      exact map_id_setRow _ _ _

theorem batch_counters (ok : Nat → Bool) (batch : List Row) (db : DbState) (ms mf : Nat) :
    (processRowsInBatch ok batch db ms mf).2.1
        = ms + (batch.filter (fun r => ok r.id)).length
    ∧ (processRowsInBatch ok batch db ms mf).2.2.1
        = mf + (batch.filter (fun r => !ok r.id)).length := by
  induction batch generalizing db ms mf with
  | nil => exact ⟨rfl, rfl⟩
  | cons r rest ih =>
    by_cases h : ok r.id
    · simp only [processRowsInBatch, h, if_true, List.filter_cons]
      have := ih { db with rows := setRow db.rows r.id .SENT } (ms + 1) mf
      simp only [h] at *
      constructor
      · rw [this.1]; simp; omega
      · rw [this.2]; simp
    · simp only [processRowsInBatch, h, if_false, List.filter_cons]
      have := ih { db with rows := setRow db.rows r.id .FAILED } ms (mf + 1)
      simp only [h] at *
      constructor
      · rw [this.1]; simp
      · rw [this.2]; simp; omega

theorem batch_untouched (ok : Nat → Bool) (batch : List Row) (db : DbState) (ms mf : Nat)
    (rid : Nat) (h : rid ∉ batch.map Row.id) :
    rowStatus (processRowsInBatch ok batch db ms mf).1.rows rid = rowStatus db.rows rid := by
  induction batch generalizing db ms mf with
  | nil => rfl
  | cons r rest ih =>
    rw [List.map_cons, List.mem_cons, not_or] at h
    by_cases hk : ok r.id
    · simp only [processRowsInBatch, hk, if_true]
      rw [ih _ _ _ h.2]
      exact rowStatus_setRow_ne _ _ h.1
    · simp only [processRowsInBatch, hk, Bool.false_eq_true, if_false]
      rw [ih _ _ _ h.2]
      exact rowStatus_setRow_ne _ _ h.1

theorem batch_outcomes (ok : Nat → Bool) (batch : List Row) (db : DbState) (ms mf : Nat)
    (hnd : (batch.map Row.id).Nodup)
    (hmem : ∀ r ∈ batch, r.id ∈ db.rows.map Row.id) :
    ∀ r ∈ batch, rowStatus (processRowsInBatch ok batch db ms mf).1.rows r.id
      = some (if ok r.id then .SENT else .FAILED) := by
  induction batch generalizing db ms mf with
  | nil => intro r hr; simp at hr
  | cons x rest ih =>
    rw [List.map_cons, List.nodup_cons] at hnd
    intro r hr
    rcases List.mem_cons.mp hr with hr | hr
    · subst hr
      by_cases hk : ok r.id
      · simp only [processRowsInBatch, hk, if_true]
        rw [batch_untouched _ _ _ _ _ _ (by exact hnd.1)]
        rw [rowStatus_setRow_self _ (hmem r (List.mem_cons_self _ _))]
      · simp only [processRowsInBatch, hk, Bool.false_eq_true, if_false]
        rw [batch_untouched _ _ _ _ _ _ (by exact hnd.1)]
        rw [rowStatus_setRow_self _ (hmem r (List.mem_cons_self _ _))]
    · have hmem' : ∀ r' ∈ rest, r'.id ∈ (setRow db.rows x.id
          (if ok x.id then RecipientStatus.SENT else .FAILED)).map Row.id := by
        intro r' hr'
        rw [map_id_setRow]
        exact hmem r' (List.mem_cons_of_mem _ hr')
      by_cases hk : ok x.id
      · simp only [processRowsInBatch, hk, if_true]
        refine ih _ _ _ hnd.2 ?_ r hr
        intro r' hr'
        have := hmem' r' hr'
        simp only [hk, if_true] at this
        exact this
      · simp only [processRowsInBatch, hk, Bool.false_eq_true, if_false]
        refine ih _ _ _ hnd.2 ?_ r hr
        intro r' hr'
        have := hmem' r' hr'
        simp only [hk, if_false] at this
        exact this

theorem batch_countPending_le (ok : Nat → Bool) (batch : List Row) (db : DbState)
    (ms mf : Nat) :
    countPending (processRowsInBatch ok batch db ms mf).1.rows ≤ countPending db.rows := by
  induction batch generalizing db ms mf with
  | nil => exact Nat.le_refl _
  | cons r rest ih =>
    by_cases hk : ok r.id
    · simp only [processRowsInBatch, hk, if_true]
      exact (ih _ _ _).trans (countPending_setRow_le _ _ (by simp))
    · simp only [processRowsInBatch, hk, Bool.false_eq_true, if_false]
      exact (ih _ _ _).trans (countPending_setRow_le _ _ (by simp))

theorem batch_trace (ok : Nat → Bool) (batch : List Row) (db : DbState) (ms mf : Nat) :
    ∀ s ∈ (processRowsInBatch ok batch db ms mf).2.2.2,
      s.bcast = db.bcast ∧ s.rows.map Row.id = db.rows.map Row.id
        ∧ countPending s.rows ≤ countPending db.rows := by
  induction batch generalizing db ms mf with
  | nil => intro s hs; simp [processRowsInBatch] at hs
  | cons r rest ih =>
    intro s hs
    by_cases hk : ok r.id
    · simp only [processRowsInBatch, hk, if_true] at hs
      rcases List.mem_cons.mp hs with hs | hs
      · subst hs
        exact ⟨rfl, map_id_setRow _ _ _, countPending_setRow_le _ _ (by simp)⟩
      · have := ih { db with rows := setRow db.rows r.id .SENT } (ms + 1) mf s hs
        refine ⟨this.1, ?_, ?_⟩
        · rw [this.2.1]; exact map_id_setRow _ _ _
        · exact this.2.2.trans (countPending_setRow_le _ _ (by simp))
    · simp only [processRowsInBatch, hk, Bool.false_eq_true, if_false] at hs
      rcases List.mem_cons.mp hs with hs | hs
      · subst hs
        exact ⟨rfl, map_id_setRow _ _ _, countPending_setRow_le _ _ (by simp)⟩
      · have := ih { db with rows := setRow db.rows r.id .FAILED } ms (mf + 1) s hs
        refine ⟨this.1, ?_, ?_⟩
        · rw [this.2.1]; exact map_id_setRow _ _ _
        · exact this.2.2.trans (countPending_setRow_le _ _ (by simp))

theorem batch_countPending_eq (ok : Nat → Bool) (batch : List Row) (db : DbState)
    (ms mf : Nat) (hnddb : (db.rows.map Row.id).Nodup)
    (hnd : (batch.map Row.id).Nodup)
    (hpend : ∀ r ∈ batch, rowStatus db.rows r.id = some .PENDING) :
    countPending (processRowsInBatch ok batch db ms mf).1.rows + batch.length
      = countPending db.rows := by
  induction batch generalizing db ms mf with
  | nil => rfl
  | cons r rest ih =>
    rw [List.map_cons, List.nodup_cons] at hnd
    have hrp : rowStatus db.rows r.id = some .PENDING :=
      hpend r (List.mem_cons_self _ _)
    have hpend' : ∀ st : RecipientStatus, ∀ r' ∈ rest,
        rowStatus (setRow db.rows r.id st) r'.id = some .PENDING := by
      intro st r' hr'
      have hne : r'.id ≠ r.id := fun hc =>
        hnd.1 (hc ▸ List.mem_map_of_mem Row.id hr')
      rw [rowStatus_setRow_ne _ _ hne]
      exact hpend r' (List.mem_cons_of_mem _ hr')
    by_cases hk : ok r.id
    · have hset : countPending (setRow db.rows r.id .SENT) + 1 = countPending db.rows :=
        countPending_setRow_eq hnddb hrp (by simp)
      have hrec : countPending (processRowsInBatch ok rest
            { db with rows := setRow db.rows r.id .SENT } (ms + 1) mf).1.rows + rest.length
          = countPending (setRow db.rows r.id .SENT) :=
        ih { db with rows := setRow db.rows r.id .SENT } (ms + 1) mf
          (by show ((setRow db.rows r.id .SENT).map Row.id).Nodup
              rw [map_id_setRow]; exact hnddb)
          hnd.2 (hpend' .SENT)
      simp only [processRowsInBatch, hk, if_true, List.length_cons]
      exact (show countPending (processRowsInBatch ok rest
            { db with rows := setRow db.rows r.id .SENT } (ms + 1) mf).1.rows
            + (rest.length + 1) = countPending db.rows by omega)
    · have hset : countPending (setRow db.rows r.id .FAILED) + 1 = countPending db.rows :=
        countPending_setRow_eq hnddb hrp (by simp)
      have hrec : countPending (processRowsInBatch ok rest
            { db with rows := setRow db.rows r.id .FAILED } ms (mf + 1)).1.rows + rest.length
          = countPending (setRow db.rows r.id .FAILED) :=
        ih { db with rows := setRow db.rows r.id .FAILED } ms (mf + 1)
          (by show ((setRow db.rows r.id .FAILED).map Row.id).Nodup
              rw [map_id_setRow]; exact hnddb)
          hnd.2 (hpend' .FAILED)
      simp only [processRowsInBatch, hk, Bool.false_eq_true, if_false, List.length_cons]
      exact (show countPending (processRowsInBatch ok rest
            { db with rows := setRow db.rows r.id .FAILED } ms (mf + 1)).1.rows
            + (rest.length + 1) = countPending db.rows by omega)

/-! ## Lemmas about the batch loop -/

theorem length_filter_bool (p : Row → Bool) (l : List Row) :
    (l.filter p).length + (l.filter (fun x => !p x)).length = l.length := by
  induction l with
  | nil => rfl
  | cons x xs ih =>
    rw [List.filter_cons, List.filter_cons]
    by_cases h : p x <;> simp [h] <;> omega

theorem runBatches_nil (ok : Nat → Bool) (obs : Nat → BroadcastStatus) (k : Nat)
    (db : DbState) (ms mf : Nat) :
    runBatches ok obs [] k db ms mf = (db, ms, mf, [], true) := rfl

theorem runBatches_cons_stop (ok : Nat → Bool) (obs : Nat → BroadcastStatus)
    (batch : List Row) (rest : List (List Row)) (k : Nat) (db : DbState) (ms mf : Nat)
    (h : obs k = .PAUSED ∨ obs k = .CANCELLED) :
    runBatches ok obs (batch :: rest) k db ms mf = (db, ms, mf, [], false) := by
  rw [runBatches, if_pos h]

theorem runBatches_cons_go (ok : Nat → Bool) (obs : Nat → BroadcastStatus)
    (batch : List Row) (rest : List (List Row)) (k : Nat) (db : DbState) (ms mf : Nat)
    (h : ¬(obs k = .PAUSED ∨ obs k = .CANCELLED)) :
    runBatches ok obs (batch :: rest) k db ms mf =
      (let step := processRowsInBatch ok batch db ms mf
       let out := runBatches ok obs rest (k + 1) (boundaryWrite step) step.2.1 step.2.2.1
       (out.1, out.2.1, out.2.2.1, step.2.2.2 ++ boundaryWrite step :: out.2.2.2.1,
         out.2.2.2.2)) := by
  rw [runBatches, if_neg h]

theorem runBatches_invariants (ok : Nat → Bool) (obs : Nat → BroadcastStatus)
    (batches : List (List Row)) (k : Nat) (db : DbState) (ms mf : Nat)
    (hms : db.bcast.sentCount = ms) (hmf : db.bcast.failedCount = mf)
    (hnddb : (db.rows.map Row.id).Nodup)
    (hndb : ((batches.join).map Row.id).Nodup)
    (hmem : ∀ r ∈ batches.join, r.id ∈ db.rows.map Row.id)
    (hpend : ∀ r ∈ batches.join, rowStatus db.rows r.id = some .PENDING) :
    (ms ≤ (runBatches ok obs batches k db ms mf).2.1
      ∧ mf ≤ (runBatches ok obs batches k db ms mf).2.2.1)
    ∧ ((runBatches ok obs batches k db ms mf).1.bcast.sentCount
          = (runBatches ok obs batches k db ms mf).2.1
      ∧ (runBatches ok obs batches k db ms mf).1.bcast.failedCount
          = (runBatches ok obs batches k db ms mf).2.2.1)
    ∧ (runBatches ok obs batches k db ms mf).1.bcast.totalRecipients
        = db.bcast.totalRecipients
    ∧ (runBatches ok obs batches k db ms mf).1.rows.map Row.id = db.rows.map Row.id
    ∧ (runBatches ok obs batches k db ms mf).2.1
        + (runBatches ok obs batches k db ms mf).2.2.1
        + countPending (runBatches ok obs batches k db ms mf).1.rows
        = ms + mf + countPending db.rows
    ∧ (∀ s ∈ (runBatches ok obs batches k db ms mf).2.2.2.1,
        s.bcast.totalRecipients = db.bcast.totalRecipients
        ∧ ms ≤ s.bcast.sentCount ∧ mf ≤ s.bcast.failedCount
        ∧ s.bcast.sentCount ≤ (runBatches ok obs batches k db ms mf).2.1
        ∧ s.bcast.failedCount ≤ (runBatches ok obs batches k db ms mf).2.2.1
        ∧ s.bcast.sentCount + s.bcast.failedCount + countPending s.rows
            ≤ ms + mf + countPending db.rows)
    ∧ (runBatches ok obs batches k db ms mf).2.2.2.1.Pairwise
        (fun s t => s.bcast.sentCount ≤ t.bcast.sentCount
          ∧ s.bcast.failedCount ≤ t.bcast.failedCount)
    ∧ ((runBatches ok obs batches k db ms mf).2.2.2.2 = true →
        (runBatches ok obs batches k db ms mf).2.1
            + (runBatches ok obs batches k db ms mf).2.2.1
          = ms + mf + (batches.join).length
        ∧ countPending (runBatches ok obs batches k db ms mf).1.rows
            + (batches.join).length
          = countPending db.rows) := by
  induction batches generalizing k db ms mf with
  | nil =>
    rw [runBatches_nil]
    refine ⟨⟨Nat.le_refl _, Nat.le_refl _⟩, ⟨hms, hmf⟩, rfl, rfl, rfl, ?_, ?_, ?_⟩
    · intro s hs; simp at hs
    · exact List.Pairwise.nil
    · intro _; simp
  | cons batch rest ih =>
    by_cases hstop : obs k = .PAUSED ∨ obs k = .CANCELLED
    · rw [runBatches_cons_stop _ _ _ _ _ _ _ _ hstop]
      refine ⟨⟨Nat.le_refl _, Nat.le_refl _⟩, ⟨hms, hmf⟩, rfl, rfl, rfl, ?_, ?_, ?_⟩
      · intro s hs; simp at hs
      · exact List.Pairwise.nil
      · intro h; simp at h
    · have hj : (batch :: rest).join = batch ++ rest.join := rfl
      have hnd' : ((batch ++ rest.join).map Row.id).Nodup := by rw [← hj]; exact hndb
      rw [List.map_append, List.nodup_append] at hnd'
      obtain ⟨hjn1, hjn2, hjdisj⟩ := hnd'
      have hmem_b : ∀ r ∈ batch, r.id ∈ db.rows.map Row.id := fun r hr =>
        hmem r (by rw [hj]; exact List.mem_append_left _ hr)
      have hpend_b : ∀ r ∈ batch, rowStatus db.rows r.id = some .PENDING := fun r hr =>
        hpend r (by rw [hj]; exact List.mem_append_left _ hr)
      have hmem_r : ∀ r ∈ rest.join, r.id ∈ db.rows.map Row.id := fun r hr =>
        hmem r (by rw [hj]; exact List.mem_append_right _ hr)
      have hpend_r : ∀ r ∈ rest.join, rowStatus db.rows r.id = some .PENDING := fun r hr =>
        hpend r (by rw [hj]; exact List.mem_append_right _ hr)
      rw [runBatches_cons_go _ _ _ _ _ _ _ _ hstop]
      dsimp only
      set S := processRowsInBatch ok batch db ms mf with hS
      have hSbc : S.1.bcast = db.bcast := batch_bcast ok batch db ms mf
      have hSids : S.1.rows.map Row.id = db.rows.map Row.id := batch_map_id ok batch db ms mf
      have hc1 : S.2.1 = ms + (batch.filter (fun r => ok r.id)).length :=
        (batch_counters ok batch db ms mf).1
      have hc2 : S.2.2.1 = mf + (batch.filter (fun r => !ok r.id)).length :=
        (batch_counters ok batch db ms mf).2
      have hlen := length_filter_bool (fun r => ok r.id) batch
      have hScp : countPending S.1.rows + batch.length = countPending db.rows :=
        batch_countPending_eq ok batch db ms mf hnddb hjn1 hpend_b
      have hStr := batch_trace ok batch db ms mf
      have hcpb : countPending (boundaryWrite S).rows = countPending S.1.rows := rfl
      have hbw1 : (boundaryWrite S).bcast.sentCount = S.2.1 := rfl
      have hbw2 : (boundaryWrite S).bcast.failedCount = S.2.2.1 := rfl
      have hbwt : (boundaryWrite S).bcast.totalRecipients = db.bcast.totalRecipients := by
        show S.1.bcast.totalRecipients = db.bcast.totalRecipients
        rw [hSbc]
      have hbwids : (boundaryWrite S).rows.map Row.id = db.rows.map Row.id := by
        show S.1.rows.map Row.id = db.rows.map Row.id
        exact hSids
      have hih := ih (k + 1) (boundaryWrite S) S.2.1 S.2.2.1 rfl rfl
        (by rw [hbwids]; exact hnddb) hjn2
        (by intro r hr; rw [hbwids]; exact hmem_r r hr)
        (by intro r hr
            show rowStatus S.1.rows r.id = some .PENDING
            rw [batch_untouched ok batch db ms mf r.id
              (fun hc => hjdisj hc (List.mem_map_of_mem Row.id hr))]
            exact hpend_r r hr)
      set O := runBatches ok obs rest (k + 1) (boundaryWrite S) S.2.1 S.2.2.1 with hO
      obtain ⟨⟨ih1a, ih1b⟩, ⟨ih2a, ih2b⟩, ih3, ih4, ih5, ih6, ih7, ih8⟩ := hih
      refine ⟨⟨by omega, by omega⟩, ⟨ih2a, ih2b⟩, ?_, ?_, ?_, ?_, ?_, ?_⟩
      · exact ih3.trans hbwt
      · exact ih4.trans hbwids
      · omega
      · intro s hs
        rcases List.mem_append.mp hs with hs | hs
        · obtain ⟨hsb, _, hscp⟩ := hStr s hs
          have e1 : s.bcast.sentCount = ms := by rw [hsb, hms]
          have e2 : s.bcast.failedCount = mf := by rw [hsb, hmf]
          have e3 : s.bcast.totalRecipients = db.bcast.totalRecipients := by rw [hsb]
          exact ⟨e3, by omega, by omega, by omega, by omega, by omega⟩
        · rcases List.mem_cons.mp hs with hs | hs
          · subst hs
            refine ⟨hbwt, ?_, ?_, ?_, ?_, ?_⟩
            · rw [hbw1]; omega
            · rw [hbw2]; omega
            · rw [hbw1]; omega
            · rw [hbw2]; omega
            · rw [hbw1, hbw2, hcpb]; omega
          · obtain ⟨f1, f2, f3, f4, f5, f6⟩ := ih6 s hs
            rw [hcpb] at f6
            exact ⟨f1.trans hbwt, by omega, by omega, f4, f5, by omega⟩
      · rw [List.pairwise_append]
        refine ⟨?_, ?_, ?_⟩
        · refine List.pairwise_of_forall_mem_list ?_
          intro a ha b hb
          have ea := (hStr a ha).1
          have eb := (hStr b hb).1
          constructor
          · rw [ea, eb]
          · rw [ea, eb]
        · rw [List.pairwise_cons]
          refine ⟨?_, ih7⟩
          intro t ht
          obtain ⟨_, f2, f3, _, _, _⟩ := ih6 t ht
          exact ⟨by rw [hbw1]; omega, by rw [hbw2]; omega⟩
        · intro a ha b hb
          have ea := (hStr a ha).1
          have e1 : a.bcast.sentCount = ms := by rw [ea, hms]
          have e2 : a.bcast.failedCount = mf := by rw [ea, hmf]
          rcases List.mem_cons.mp hb with hb | hb
          · subst hb
            exact ⟨by rw [hbw1]; omega, by rw [hbw2]; omega⟩
          · obtain ⟨_, f2, f3, _, _, _⟩ := ih6 b hb
            exact ⟨by omega, by omega⟩
      · intro hflag
        obtain ⟨g1, g2⟩ := ih8 hflag
        rw [hcpb] at g2
        have hjl : ((batch :: rest).join).length = batch.length + (rest.join).length := by
          rw [hj, List.length_append]
        constructor
        · omega
        · omega

theorem runBatches_untouched (ok : Nat → Bool) (obs : Nat → BroadcastStatus)
    (batches : List (List Row)) (k : Nat) (db : DbState) (ms mf : Nat) (rid : Nat)
    (h : rid ∉ (batches.join).map Row.id) :
    rowStatus (runBatches ok obs batches k db ms mf).1.rows rid
      = rowStatus db.rows rid := by
  induction batches generalizing k db ms mf with
  | nil => rw [runBatches_nil]
  | cons batch rest ih =>
    have hj : (batch :: rest).join = batch ++ rest.join := rfl
    have h1 : rid ∉ batch.map Row.id := fun hc =>
      h (by rw [hj, List.map_append]; exact List.mem_append_left _ hc)
    have h2 : rid ∉ (rest.join).map Row.id := fun hc =>
      h (by rw [hj, List.map_append]; exact List.mem_append_right _ hc)
    by_cases hstop : obs k = .PAUSED ∨ obs k = .CANCELLED
    · rw [runBatches_cons_stop _ _ _ _ _ _ _ _ hstop]
    · rw [runBatches_cons_go _ _ _ _ _ _ _ _ hstop]
      dsimp only
      set S := processRowsInBatch ok batch db ms mf with hS
      rw [ih (k + 1) (boundaryWrite S) S.2.1 S.2.2.1 h2]
      show rowStatus S.1.rows rid = rowStatus db.rows rid
      exact batch_untouched ok batch db ms mf rid h1

theorem runBatches_rowStatus (ok : Nat → Bool) (obs : Nat → BroadcastStatus)
    (batches : List (List Row)) (k : Nat) (db : DbState) (ms mf : Nat)
    (hnddb : (db.rows.map Row.id).Nodup)
    (hndb : ((batches.join).map Row.id).Nodup)
    (hmem : ∀ r ∈ batches.join, r.id ∈ db.rows.map Row.id)
    (hpend : ∀ r ∈ batches.join, rowStatus db.rows r.id = some .PENDING) :
    ∀ j, ∀ hj : j < batches.length, ∀ r ∈ batches.get ⟨j, hj⟩,
      ((∀ i, i ≤ j → ¬(obs (k + i) = .PAUSED ∨ obs (k + i) = .CANCELLED)) →
        rowStatus (runBatches ok obs batches k db ms mf).1.rows r.id
          = some (if ok r.id then .SENT else .FAILED))
      ∧ ((∃ i, i ≤ j ∧ (obs (k + i) = .PAUSED ∨ obs (k + i) = .CANCELLED)) →
        rowStatus (runBatches ok obs batches k db ms mf).1.rows r.id
          = some .PENDING) := by
  induction batches generalizing k db ms mf with
  | nil =>
    intro j hj
    exact absurd hj (Nat.not_lt_zero j)
  | cons batch rest ih =>
    have hj0 : (batch :: rest).join = batch ++ rest.join := rfl
    have hnd' : ((batch ++ rest.join).map Row.id).Nodup := by rw [← hj0]; exact hndb
    rw [List.map_append, List.nodup_append] at hnd'
    obtain ⟨hjn1, hjn2, hjdisj⟩ := hnd'
    have hmem_b : ∀ r ∈ batch, r.id ∈ db.rows.map Row.id := fun r hr =>
      hmem r (by rw [hj0]; exact List.mem_append_left _ hr)
    have hpend_b : ∀ r ∈ batch, rowStatus db.rows r.id = some .PENDING := fun r hr =>
      hpend r (by rw [hj0]; exact List.mem_append_left _ hr)
    have hmem_r : ∀ r ∈ rest.join, r.id ∈ db.rows.map Row.id := fun r hr =>
      hmem r (by rw [hj0]; exact List.mem_append_right _ hr)
    have hpend_r : ∀ r ∈ rest.join, rowStatus db.rows r.id = some .PENDING := fun r hr =>
      hpend r (by rw [hj0]; exact List.mem_append_right _ hr)
    by_cases hstop : obs k = .PAUSED ∨ obs k = .CANCELLED
    · rw [runBatches_cons_stop _ _ _ _ _ _ _ _ hstop]
      intro j hj r hr
      constructor
      · intro hall
        have h0 := hall 0 (Nat.zero_le j)
        rw [Nat.add_zero] at h0
        exact absurd hstop h0
      · intro _
        exact hpend r (List.mem_join.mpr ⟨_, List.get_mem _ _ _, hr⟩)
    · rw [runBatches_cons_go _ _ _ _ _ _ _ _ hstop]
      dsimp only
      set S := processRowsInBatch ok batch db ms mf with hS
      have hSids : S.1.rows.map Row.id = db.rows.map Row.id := batch_map_id ok batch db ms mf
      have hbwids : (boundaryWrite S).rows.map Row.id = db.rows.map Row.id := by
        show S.1.rows.map Row.id = db.rows.map Row.id
        exact hSids
      intro j hj r hr
      cases j with
      | zero =>
        have hrb : r ∈ batch := hr
        constructor
        · intro _
          have hnotin : r.id ∉ (rest.join).map Row.id := fun hc =>
            hjdisj (List.mem_map_of_mem Row.id hrb) hc
          rw [runBatches_untouched ok obs rest (k + 1) (boundaryWrite S) S.2.1 S.2.2.1
            r.id hnotin]
          show rowStatus S.1.rows r.id = some (if ok r.id then .SENT else .FAILED)
          exact batch_outcomes ok batch db ms mf hjn1 hmem_b r hrb
        · intro hex
          obtain ⟨i, hi, hioc⟩ := hex
          have hi0 : i = 0 := Nat.le_zero.mp hi
          subst hi0
          rw [Nat.add_zero] at hioc
          exact absurd hioc hstop
      | succ j' =>
        have hj' : j' < rest.length := Nat.lt_of_succ_lt_succ hj
        have hrg : r ∈ rest.get ⟨j', hj'⟩ := hr
        have hIH := ih (k + 1) (boundaryWrite S) S.2.1 S.2.2.1
          (by rw [hbwids]; exact hnddb) hjn2
          (by intro r' hr'; rw [hbwids]; exact hmem_r r' hr')
          (by intro r' hr'
              show rowStatus S.1.rows r'.id = some .PENDING
              rw [batch_untouched ok batch db ms mf r'.id
                (fun hc => hjdisj hc (List.mem_map_of_mem Row.id hr'))]
              exact hpend_r r' hr')
          j' hj' r hrg
        constructor
        · intro hall
          apply hIH.1
          intro i hi
          have h' := hall (i + 1) (Nat.succ_le_succ hi)
          rw [show k + (i + 1) = (k + 1) + i by omega] at h'
          exact h'
        · intro hex
          obtain ⟨i, hi, hioc⟩ := hex
          cases i with
          | zero =>
            rw [Nat.add_zero] at hioc
            exact absurd hioc hstop
          | succ i' =>
            apply hIH.2
            refine ⟨i', Nat.le_of_succ_le_succ hi, ?_⟩
            rw [show (k + 1) + i' = k + (i' + 1) by omega]
            exact hioc

/-! ## Lemmas about claiming and chunking -/

theorem chunks_join (n : Nat) (l : List Row) : (chunks n l).join = l := by
  generalize hlen : l.length = N
  induction N using Nat.strong_induction_on generalizing l with
  | _ N ihN =>
    cases l with
    | nil => rw [chunks]; rfl
    | cons x xs =>
      rw [chunks]
      have hrec := ihN ((x :: xs).drop (max 1 n)).length
        (by rw [← hlen, List.length_drop, List.length_cons]; omega) _ rfl
      calc (List.take (max 1 n) (x :: xs) :: chunks n ((x :: xs).drop (max 1 n))).join
          = List.take (max 1 n) (x :: xs)
              ++ (chunks n ((x :: xs).drop (max 1 n))).join := rfl
        _ = List.take (max 1 n) (x :: xs) ++ (x :: xs).drop (max 1 n) := by rw [hrec]
        _ = x :: xs := List.take_append_drop _ _

theorem claimPending_perm (rows : List Row) :
    (claimPending rows).Perm (rows.filter Row.isPending) :=
  List.perm_insertionSort _ _

theorem claimPending_nodup {rows : List Row} (hnd : (rows.map Row.id).Nodup) :
    ((claimPending rows).map Row.id).Nodup := by
  have hperm := (claimPending_perm rows).map Row.id
  have hf : (rows.filter Row.isPending).Sublist rows := List.filter_sublist rows
  have hsub : ((rows.filter Row.isPending).map Row.id).Nodup :=
    hnd.sublist (hf.map Row.id)
  exact hperm.nodup_iff.mpr hsub

theorem claimPending_mem {rows : List Row} {r : Row} (h : r ∈ claimPending rows) :
    r ∈ rows ∧ r.isPending = true := by
  have hm := (claimPending_perm rows).mem_iff.mp h
  exact ⟨List.mem_of_mem_filter hm, List.of_mem_filter hm⟩

theorem claimPending_rowStatus {rows : List Row} {r : Row}
    (hnd : (rows.map Row.id).Nodup) (h : r ∈ claimPending rows) :
    rowStatus rows r.id = some .PENDING := by
  obtain ⟨hmem, hpend⟩ := claimPending_mem h
  rw [rowStatus_of_mem_nodup hnd hmem]
  have hst : r.status = .PENDING := by
    simpa [Row.isPending] using hpend
  rw [hst]

theorem handleSendBroadcast_go (ok : Nat → Bool) (obs : Nat → BroadcastStatus)
    (db : DbState) (h : ¬db.bcast.status = .CANCELLED) :
    handleSendBroadcast ok obs db =
      (let out := runBatches ok obs
         (chunks (effBatchSize db.bcast.batchSize) (claimPending db.rows))
         0 (sendingWrite db) db.bcast.sentCount db.bcast.failedCount
       if out.2.2.2.2 then
         (completionWrite out, db :: sendingWrite db :: out.2.2.2.1 ++ [completionWrite out])
       else
         (out.1, db :: sendingWrite db :: out.2.2.2.1)) := by
  rw [handleSendBroadcast, if_neg h]

/-! ## Claim theorems -/

/-- C6: for a campaign with 5 recipients, batchSize 2 and all gateway calls
succeeding, the dispatcher processes exactly 3 batches of sizes 2, 2, 1, and
the campaign ends COMPLETED with sentCount 5 and failedCount 0. -/
theorem five_recipients_three_batches :
    (chunks (effBatchSize exDb5.bcast.batchSize) (claimPending exDb5.rows)).map List.length
        = [2, 2, 1]
    ∧ (handleSendBroadcast (fun _ => true) (fun _ => .SENDING) exDb5).1.bcast.status
        = .COMPLETED
    ∧ (handleSendBroadcast (fun _ => true) (fun _ => .SENDING) exDb5).1.bcast.sentCount = 5
    ∧ (handleSendBroadcast (fun _ => true) (fun _ => .SENDING) exDb5).1.bcast.failedCount
        = 0 := by
  refine ⟨?_, ?_, ?_, ?_⟩ <;>
    simp [handleSendBroadcast, runBatches, chunks, claimPending, exDb5, effBatchSize,
      freshRow, Row.isPending, List.insertionSort, List.orderedInsert,
      processRowsInBatch, setRow, sendingWrite, completionWrite, boundaryWrite]

/-- C7: a control request for a transition the lifecycle state machine does
not permit (pause when not SENDING, resume when not PAUSED, cancel when not
QUEUED/SENDING/PAUSED/SCHEDULED, send-now when not DRAFT/SCHEDULED) is
rejected with a validation error and leaves the stored campaign status
unchanged. -/
theorem invalid_transition_rejected (s1 s2 s3 s4 : BroadcastStatus)
    (h1 : s1 ≠ .SENDING) (h2 : s2 ≠ .PAUSED)
    (h3 : s3 ∉ ([.QUEUED, .SENDING, .PAUSED, .SCHEDULED] : List BroadcastStatus))
    (h4 : s4 ∉ ([.DRAFT, .SCHEDULED] : List BroadcastStatus)) :
    (pause s1 = .error .badRequest ∧ applyControl pause s1 = s1)
    ∧ (resume s2 = .error .badRequest ∧ applyControl resume s2 = s2)
    ∧ (cancel s3 = .error .badRequest ∧ applyControl cancel s3 = s3)
    ∧ (send s4 = .error .badRequest ∧ applyControl send s4 = s4) := by
  refine ⟨⟨?_, ?_⟩, ⟨?_, ?_⟩, ⟨?_, ?_⟩, ⟨?_, ?_⟩⟩ <;>
    simp [pause, resume, cancel, send, applyControl, h1, h2, h3, h4]

/-- Witness for C7 at concrete statuses: pause/resume/cancel on a DRAFT
campaign and send-now on a SENDING campaign are all rejected without a state
change. -/
theorem invalid_transition_rejected_witness :
    (pause .DRAFT = .error .badRequest ∧ applyControl pause .DRAFT = .DRAFT)
    ∧ (resume .DRAFT = .error .badRequest ∧ applyControl resume .DRAFT = .DRAFT)
    ∧ (cancel .DRAFT = .error .badRequest ∧ applyControl cancel .DRAFT = .DRAFT)
    ∧ (send .SENDING = .error .badRequest ∧ applyControl send .SENDING = .SENDING) :=
  invalid_transition_rejected .DRAFT .DRAFT .DRAFT .SENDING
    (by decide) (by decide) (by decide) (by decide)

/-- C8: a targeting rule that resolves to an empty recipient set makes
campaign creation throw the zero-recipients validation error before anything
is persisted (the `Except.error` result carries no created record). -/
theorem empty_recipients_rejected (db : Db) (broadcastsLimit : Int)
    (monthlyCount : Nat) (tenantId : Nat) (dto : TargetDto) (scheduled : Bool)
    (bs bd : Option Nat)
    (h : calculateRecipients db tenantId dto = []) :
    create db broadcastsLimit monthlyCount tenantId dto scheduled bs bd
      = .error .noRecipients := by
  simp [create, h]

/-- Witness for C8: a tenant with no contacts and ALL targeting resolves to
the empty set and creation is rejected. -/
theorem empty_recipients_rejected_witness :
    calculateRecipients { contacts := [], groupMembers := [] } 0 exDtoAll = []
    ∧ create { contacts := [], groupMembers := [] } (-1) 0 0 exDtoAll false none none
        = .error .noRecipients :=
  ⟨by decide, empty_recipients_rejected _ _ _ _ _ _ _ _ (by decide)⟩

/-- C10: creation fails with the monthly-limit error exactly when the
recipient set is nonempty, the plan's broadcastsLimit is finite (not -1), and
the month's recipient-row count plus the new campaign's recipient count
exceeds the limit; a plan with broadcastsLimit = -1 is never rejected for
this reason. -/
theorem monthly_limit_check (db : Db) (broadcastsLimit : Int) (monthlyCount : Nat)
    (tenantId : Nat) (dto : TargetDto) (scheduled : Bool) (bs bd : Option Nat) :
    (create db broadcastsLimit monthlyCount tenantId dto scheduled bs bd
          = .error .monthlyLimitExceeded
      ↔ (calculateRecipients db tenantId dto).length ≠ 0
        ∧ broadcastsLimit ≠ -1
        ∧ broadcastsLimit
            < (monthlyCount : Int) + (calculateRecipients db tenantId dto).length)
    ∧ (broadcastsLimit = -1 →
        create db broadcastsLimit monthlyCount tenantId dto scheduled bs bd
          ≠ .error .monthlyLimitExceeded) := by
  constructor
  · by_cases h0 : (calculateRecipients db tenantId dto).length = 0
    · simp [create, h0]
    · by_cases hlim : broadcastsLimit ≠ -1
          ∧ broadcastsLimit
            < (monthlyCount : Int) + (calculateRecipients db tenantId dto).length
      · simp only [create, if_neg h0, if_pos hlim]
        simp [h0, hlim.1, hlim.2]
      · simp only [create, if_neg h0, if_neg hlim]
        simp only [not_and_or] at hlim
        constructor
        · intro hc; exact absurd hc (by simp)
        · intro hc
          rcases hlim with hlim | hlim
          · exact absurd hc.2.1 (by simpa using hlim)
          · exact absurd hc.2.2 hlim
  · intro hminus hc
    by_cases h0 : (calculateRecipients db tenantId dto).length = 0
    · simp [create, h0] at hc
    · simp [create, h0, hminus] at hc

/-- Witness for C10: with a plan limit of 1, one recipient row already this
month, and a resolution of one recipient, creation is rejected with the
monthly-limit error. -/
theorem monthly_limit_check_witness :
    create exContactsDb 1 1 0 exDtoAll false none none
      = .error .monthlyLimitExceeded :=
  (monthly_limit_check exContactsDb 1 1 0 exDtoAll false none none).1.mpr
    ⟨by decide, by decide, by decide⟩

/-- Two permutations of one another that are sorted by `createdAt`, the
second strictly, are equal: a sorted permutation is unique once the keys are
distinct. -/
theorem sorted_perm_unique (l₁ l₂ : List Row) (hperm : l₁.Perm l₂)
    (h₁ : l₁.Pairwise (fun a b => a.createdAt ≤ b.createdAt))
    (h₂ : l₂.Pairwise (fun a b => a.createdAt < b.createdAt)) :
    l₁ = l₂ := by
  induction l₂ generalizing l₁ with
  | nil => exact hperm.eq_nil
  | cons x xs ih =>
    cases l₁ with
    | nil => exact ((List.cons_ne_nil x xs) hperm.symm.eq_nil).elim
    | cons y ys =>
      obtain ⟨h1h, h1t⟩ := List.pairwise_cons.mp h₁
      obtain ⟨h2h, h2t⟩ := List.pairwise_cons.mp h₂
      by_cases hxy : y = x
      · subst hxy
        rw [ih ys hperm.cons_inv h1t h2t]
      · have hy₂ : y ∈ x :: xs := hperm.mem_iff.mp (List.mem_cons_self y ys)
        have hyxs : y ∈ xs := by
          rcases List.mem_cons.mp hy₂ with h | h
          · exact absurd h hxy
          · exact h
        have hxlt : x.createdAt < y.createdAt := h2h y hyxs
        have hx₁ : x ∈ y :: ys := hperm.mem_iff.mpr (List.mem_cons_self x xs)
        have hxys : x ∈ ys := by
          rcases List.mem_cons.mp hx₁ with h | h
          · exact absurd h.symm hxy
          · exact h
        have hyle : y.createdAt ≤ x.createdAt := h1h x hxys
        omega

/-- C9 counterexample: for a fixed two-row recipient table whose rows share
one creation timestamp — exactly what the nested `createMany` produces for a
campaign's rows — both the insertion order and its reversal satisfy the claim
query's contract, so the code guarantees neither insertion-order processing
nor a deterministic processing order. -/
theorem claim_order_counterexample :
    validClaimOrder [exTieA, exTieB] [exTieA, exTieB]
    ∧ validClaimOrder [exTieA, exTieB] [exTieB, exTieA]
    ∧ ([exTieB, exTieA] : List Row) ≠ [exTieA, exTieB] := by
  refine ⟨⟨by decide, by decide⟩, ⟨by decide, by decide⟩, by decide⟩

/-- C9 amended: the claim query guarantees only some createdAt-sorted
permutation of the pending rows; the processing order is the original
creation (insertion) order, and deterministic, only when the stored creation
timestamps are strictly increasing — then every order satisfying the query's
contract coincides with the stored pending order.  Rows created by one nested
`createMany` share a single timestamp, so for them no particular order is
guaranteed. -/
theorem rows_claim_order_amended (rows claimed : List Row)
    (hstrict : rows.Pairwise (fun a b => a.createdAt < b.createdAt))
    (hvalid : validClaimOrder rows claimed) :
    claimed = rows.filter Row.isPending :=
  sorted_perm_unique claimed (rows.filter Row.isPending) hvalid.1 hvalid.2
    (List.Pairwise.filter _ hstrict)

/-- Witness for C9 amended: with strictly increasing timestamps, the
dispatcher's modelled claim order (one valid order of the query) equals the
stored pending order. -/
theorem rows_claim_order_amended_witness :
    ([freshRow 0, freshRow 1].Pairwise (fun a b => a.createdAt < b.createdAt))
    ∧ claimPending [freshRow 0, freshRow 1]
        = [freshRow 0, freshRow 1].filter Row.isPending :=
  ⟨by decide, rows_claim_order_amended [freshRow 0, freshRow 1]
    (claimPending [freshRow 0, freshRow 1]) (by decide) ⟨by decide, by decide⟩⟩

/-- Mapping contact ids over a filtered contact table yields a duplicate-free
list when the table's ids are duplicate-free, and only phone-bearing contacts
when the filter requires a phone. -/
theorem filter_map_result (contacts : List Contact) (p : Contact → Bool)
    (hnd : (contacts.map Contact.id).Nodup)
    (hp : ∀ c, p c = true → c.phone.isSome = true) :
    ((contacts.filter p).map Contact.id).Nodup
    ∧ ∀ c ∈ contacts, c.id ∈ (contacts.filter p).map Contact.id →
        c.phone.isSome = true := by
  constructor
  · have hf : (contacts.filter p).Sublist contacts := List.filter_sublist contacts
    exact hnd.sublist (hf.map Contact.id)
  · intro c hc hid
    obtain ⟨c', hc', hcid⟩ := List.mem_map.mp hid
    have hc'mem : c' ∈ contacts := List.mem_of_mem_filter hc'
    have hps : p c' = true := List.of_mem_filter hc'
    have hcc : c' = c := List.inj_on_of_nodup_map hnd hc'mem hc hcid
    rw [← hcc]
    exact hp c' hps

/-- C2 counterexample: CUSTOM targeting with no filters object passes the
caller's contact-id list through unchanged, so the resolver returns a list
with a duplicate and with a contact that has no phone number. -/
theorem resolver_counterexample :
    calculateRecipients exContactsDb 0 exDtoCustomDup = [1, 1]
    ∧ ¬(calculateRecipients exContactsDb 0 exDtoCustomDup).Nodup
    ∧ exNoPhone ∈ exContactsDb.contacts
    ∧ exNoPhone.phone = none
    ∧ exNoPhone.id ∈ calculateRecipients exContactsDb 0 exDtoCustomDup := by
  refine ⟨by decide, by decide, by decide, rfl, by decide⟩

/-- C2 amended: the resolver's result is duplicate-free and excludes
phone-less contacts whenever a filters object is provided or the targeting is
ALL; without a filters object, GROUP/TAG/CUSTOM targeting may return
phone-less contacts and CUSTOM may return duplicates. -/
theorem resolver_amended (db : Db) (tenantId : Nat) (dto : TargetDto)
    (hnd : (db.contacts.map Contact.id).Nodup)
    (hcase : dto.filters.isSome = true ∨ dto.targetType = .ALL) :
    (calculateRecipients db tenantId dto).Nodup
    ∧ ∀ c ∈ db.contacts, c.id ∈ calculateRecipients db tenantId dto →
        c.phone.isSome = true := by
  cases hf : dto.filters with
  | some f =>
    unfold calculateRecipients
    rw [hf]
    dsimp only
    by_cases he : (baseContactIds db tenantId dto).isEmpty
    · rw [if_pos he]
      rw [List.isEmpty_iff] at he
      rw [he]
      exact ⟨List.nodup_nil, by intro c _ hc; simp at hc⟩
    · rw [if_neg he]
      refine filter_map_result db.contacts _ hnd ?_
      intro c hq
      simp only [Bool.and_eq_true] at hq
      exact hq.1.2
  | none =>
    have hall : dto.targetType = .ALL := by
      rcases hcase with hcase | hcase
      · rw [hf] at hcase; simp at hcase
      · exact hcase
    unfold calculateRecipients baseContactIds
    rw [hf, hall]
    dsimp only
    refine filter_map_result db.contacts _ hnd ?_
    intro c hq
    simp only [Bool.and_eq_true] at hq
    exact hq.2

/-- Witness for C2 amended: ALL targeting over a table holding a phone-less
contact returns only the phone-bearing contact, without duplicates. -/
theorem resolver_amended_witness :
    ((exContactsDb.contacts.map Contact.id).Nodup)
    ∧ (calculateRecipients exContactsDb 0 exDtoAll).Nodup
    ∧ (exWithPhone.id ∈ calculateRecipients exContactsDb 0 exDtoAll →
        exWithPhone.phone.isSome = true) :=
  ⟨by decide,
   (resolver_amended exContactsDb 0 exDtoAll (by decide) (Or.inr rfl)).1,
   (resolver_amended exContactsDb 0 exDtoAll (by decide) (Or.inr rfl)).2
     exWithPhone (by decide)⟩

/-- C1 counterexample: a single-recipient campaign whose only send attempt
fails (the gateway call returns an error — transient or not, `sendMessage`
reports only `success: false`) ends with the row FAILED after this first
attempt, not PENDING: there is no retry. -/
theorem transient_failure_counterexample :
    (handleSendBroadcast (fun _ => false) (fun _ => .SENDING) exDb1).1.rows
        = [{ id := 0, createdAt := 0, status := .FAILED }]
    ∧ (handleSendBroadcast (fun _ => false) (fun _ => .SENDING) exDb1).1.bcast.failedCount
        = 1
    ∧ rowStatus (handleSendBroadcast (fun _ => false) (fun _ => .SENDING) exDb1).1.rows 0
        ≠ some .PENDING := by
  refine ⟨?_, ?_, ?_⟩ <;>
    simp [handleSendBroadcast, runBatches, chunks, claimPending, exDb1, effBatchSize,
      freshRow, Row.isPending, List.insertionSort, List.orderedInsert,
      processRowsInBatch, setRow, sendingWrite, completionWrite, boundaryWrite,
      rowStatus, List.find?]

/-- C1 amended: the dispatcher does not distinguish transient from permanent
failures and keeps no per-row attempt counter; every claimed row whose send
attempt fails is marked FAILED immediately, on the first failure. -/
theorem failure_marks_row_failed (ok : Nat → Bool) (obs : Nat → BroadcastStatus)
    (db : DbState) (hnc : db.bcast.status ≠ .CANCELLED)
    (hnd : (db.rows.map Row.id).Nodup)
    (hobs : ∀ i, ¬(obs i = .PAUSED ∨ obs i = .CANCELLED)) :
    ∀ r ∈ claimPending db.rows, ok r.id = false →
      rowStatus (handleSendBroadcast ok obs db).1.rows r.id = some .FAILED := by
  intro r hr hok
  set B := chunks (effBatchSize db.bcast.batchSize) (claimPending db.rows) with hB
  have hjoin : B.join = claimPending db.rows := chunks_join _ _
  have hnddb' : ((sendingWrite db).rows.map Row.id).Nodup := hnd
  have hndb : ((B.join).map Row.id).Nodup := by
    rw [hjoin]; exact claimPending_nodup hnd
  have hmem : ∀ r' ∈ B.join, r'.id ∈ (sendingWrite db).rows.map Row.id := by
    intro r' hr'
    rw [hjoin] at hr'
    exact List.mem_map_of_mem Row.id (claimPending_mem hr').1
  have hpend : ∀ r' ∈ B.join, rowStatus (sendingWrite db).rows r'.id = some .PENDING := by
    intro r' hr'
    rw [hjoin] at hr'
    exact claimPending_rowStatus hnd hr'
  have hrB : r ∈ B.join := by rw [hjoin]; exact hr
  obtain ⟨l, hl, hrl⟩ := List.mem_join.mp hrB
  obtain ⟨⟨j, hj⟩, hget⟩ := List.mem_iff_get.mp hl
  have hrget : r ∈ B.get ⟨j, hj⟩ := by rw [hget]; exact hrl
  have hout := (runBatches_rowStatus ok obs B 0 (sendingWrite db)
      db.bcast.sentCount db.bcast.failedCount hnddb' hndb hmem hpend j hj r hrget).1
    (by intro i _; rw [Nat.zero_add]; exact hobs i)
  rw [hok] at hout
  simp only [Bool.false_eq_true, if_false] at hout
  rw [handleSendBroadcast_go ok obs db hnc]
  dsimp only
  rw [← hB]
  by_cases hflag : (runBatches ok obs B 0 (sendingWrite db)
      db.bcast.sentCount db.bcast.failedCount).2.2.2.2 = true
  · rw [if_pos hflag]
    exact hout
  · rw [if_neg hflag]
    exact hout

/-- Witness for C1 amended: the single failed recipient of the
counterexample run is FAILED after its first attempt. -/
theorem failure_marks_row_failed_witness :
    rowStatus (handleSendBroadcast (fun _ => false) (fun _ => .SENDING) exDb1).1.rows 0
      = some .FAILED :=
  failure_marks_row_failed (fun _ => false) (fun _ => .SENDING) exDb1
    (by decide) (by decide)
    (fun _ => by
      show ¬(BroadcastStatus.SENDING = .PAUSED ∨ BroadcastStatus.SENDING = .CANCELLED)
      decide)
    (freshRow 0) (by decide) rfl

/-- C3 counterexample: in the one-recipient successful run, the committed
state right after the row's own update has the row terminal (SENT) while the
campaign's sentCount still reads 0 — the row update and the counter update
are not in one transaction. -/
theorem record_outcome_counterexample :
    exMidState1 ∈ (handleSendBroadcast (fun _ => true) (fun _ => .SENDING) exDb1).2
    ∧ rowStatus exMidState1.rows 0 = some .SENT
    ∧ exMidState1.bcast.sentCount = 0 := by
  refine ⟨?_, by decide, rfl⟩
  simp [handleSendBroadcast, runBatches, chunks, claimPending, exDb1, exMidState1,
    effBatchSize, freshRow, Row.isPending, List.insertionSort, List.orderedInsert,
    processRowsInBatch, setRow, sendingWrite, completionWrite, boundaryWrite]

/-- C3 amended: recording an outcome sets the row's terminal state in its own
single-row update, while the matching aggregate counters are incremented in a
separate per-batch write: every committed state inside the batch still holds
the batch-entry counters, and the per-batch counter write adds exactly the
number of successes and failures recorded in the batch. -/
theorem record_outcome_batchwise (ok : Nat → Bool) (batch : List Row) (db : DbState)
    (ms mf : Nat) (hnd : (batch.map Row.id).Nodup)
    (hmem : ∀ r ∈ batch, r.id ∈ db.rows.map Row.id) :
    (∀ r ∈ batch, rowStatus (processRowsInBatch ok batch db ms mf).1.rows r.id
        = some (if ok r.id then .SENT else .FAILED))
    ∧ (processRowsInBatch ok batch db ms mf).2.1
        = ms + (batch.filter (fun r => ok r.id)).length
    ∧ (processRowsInBatch ok batch db ms mf).2.2.1
        = mf + (batch.filter (fun r => !ok r.id)).length
    ∧ (boundaryWrite (processRowsInBatch ok batch db ms mf)).bcast.sentCount
        = (processRowsInBatch ok batch db ms mf).2.1
    ∧ (boundaryWrite (processRowsInBatch ok batch db ms mf)).bcast.failedCount
        = (processRowsInBatch ok batch db ms mf).2.2.1
    ∧ (∀ s ∈ (processRowsInBatch ok batch db ms mf).2.2.2, s.bcast = db.bcast) :=
  ⟨batch_outcomes ok batch db ms mf hnd hmem, (batch_counters ok batch db ms mf).1,
   (batch_counters ok batch db ms mf).2, rfl, rfl,
   fun s hs => (batch_trace ok batch db ms mf s hs).1⟩

/-- Witness for C3 amended on a one-row batch. -/
theorem record_outcome_batchwise_witness :
    ([freshRow 0].map Row.id).Nodup
    ∧ (processRowsInBatch (fun _ => true) [freshRow 0] exDb1 0 0).2.1 = 0 + 1 :=
  ⟨by decide, (record_outcome_batchwise (fun _ => true) [freshRow 0] exDb1 0 0
    (by decide) (by decide)).2.1⟩

/-- C5: the dispatcher re-reads the campaign status at the start of every
batch iteration; for any row of the j-th claimed batch, if no pause/cancel
was observed at or before iteration j the row is carried to completion with
its actual send outcome recorded, and if a pause/cancel was observed at or
before iteration j the batch was never claimed and the row is still PENDING —
no dispatched send is abandoned or left unrecorded. -/
theorem pause_cancel_cooperative (ok : Nat → Bool) (obs : Nat → BroadcastStatus)
    (db : DbState) (hnc : db.bcast.status ≠ .CANCELLED)
    (hnd : (db.rows.map Row.id).Nodup) :
    ∀ j, ∀ hj : j < (chunks (effBatchSize db.bcast.batchSize)
        (claimPending db.rows)).length,
      ∀ r ∈ (chunks (effBatchSize db.bcast.batchSize) (claimPending db.rows)).get ⟨j, hj⟩,
      ((∀ i, i ≤ j → ¬(obs i = .PAUSED ∨ obs i = .CANCELLED)) →
        rowStatus (handleSendBroadcast ok obs db).1.rows r.id
          = some (if ok r.id then .SENT else .FAILED))
      ∧ ((∃ i, i ≤ j ∧ (obs i = .PAUSED ∨ obs i = .CANCELLED)) →
        rowStatus (handleSendBroadcast ok obs db).1.rows r.id = some .PENDING) := by
  set B := chunks (effBatchSize db.bcast.batchSize) (claimPending db.rows) with hB
  have hjoin : B.join = claimPending db.rows := chunks_join _ _
  have hndb : ((B.join).map Row.id).Nodup := by
    rw [hjoin]; exact claimPending_nodup hnd
  have hmem : ∀ r' ∈ B.join, r'.id ∈ (sendingWrite db).rows.map Row.id := by
    intro r' hr'
    rw [hjoin] at hr'
    exact List.mem_map_of_mem Row.id (claimPending_mem hr').1
  have hpend : ∀ r' ∈ B.join, rowStatus (sendingWrite db).rows r'.id = some .PENDING := by
    intro r' hr'
    rw [hjoin] at hr'
    exact claimPending_rowStatus hnd hr'
  intro j hj r hr
  have base := runBatches_rowStatus ok obs B 0 (sendingWrite db)
    db.bcast.sentCount db.bcast.failedCount hnd hndb hmem hpend j hj r hr
  have hrows : rowStatus (handleSendBroadcast ok obs db).1.rows r.id
      = rowStatus (runBatches ok obs B 0 (sendingWrite db) db.bcast.sentCount
          db.bcast.failedCount).1.rows r.id := by
    rw [handleSendBroadcast_go ok obs db hnc]
    dsimp only
    rw [← hB]
    by_cases hflag : (runBatches ok obs B 0 (sendingWrite db) db.bcast.sentCount
        db.bcast.failedCount).2.2.2.2 = true
    · rw [if_pos hflag]; rfl
    · rw [if_neg hflag]
  constructor
  · intro hall
    rw [hrows]
    exact base.1 (by intro i hi; rw [Nat.zero_add]; exact hall i hi)
  · intro hex
    rw [hrows]
    obtain ⟨i, hi, hoc⟩ := hex
    exact base.2 ⟨i, hi, by rw [Nat.zero_add]; exact hoc⟩

/-- Witness for C5: with a pause observed from the second iteration on, a row
of the second claimed batch of the five-recipient campaign is left PENDING. -/
theorem pause_cancel_cooperative_witness :
    rowStatus (handleSendBroadcast (fun _ => true)
        (fun k => if k = 0 then BroadcastStatus.SENDING else .PAUSED) exDb5).1.rows 2
      = some .PENDING := by
  have hj : 1 < (chunks (effBatchSize exDb5.bcast.batchSize)
      (claimPending exDb5.rows)).length := by
    simp [chunks, claimPending, exDb5, effBatchSize, freshRow, Row.isPending,
      List.insertionSort, List.orderedInsert]
  have hm : freshRow 2 ∈ (chunks (effBatchSize exDb5.bcast.batchSize)
      (claimPending exDb5.rows)).get ⟨1, hj⟩ := by
    simp [chunks, claimPending, exDb5, effBatchSize, freshRow, Row.isPending,
      List.insertionSort, List.orderedInsert, List.get]
  exact (pause_cancel_cooperative (fun _ => true)
    (fun k => if k = 0 then BroadcastStatus.SENDING else .PAUSED) exDb5
    (by decide) (by decide) 1 hj (freshRow 2) hm).2 ⟨1, Nat.le_refl 1, Or.inl (by decide)⟩

/-- C4 counterexample: in a two-recipient run, the committed state after the
first row's update has sentCount + failedCount + pendingCount = 1 while
totalRecipients = 2, so the conservation equality does not hold at every
point. -/
theorem conservation_counterexample :
    exMidState2 ∈ (handleSendBroadcast (fun _ => true) (fun _ => .SENDING) exDb2).2
    ∧ exMidState2.bcast.sentCount + exMidState2.bcast.failedCount
        + countPending exMidState2.rows ≠ exMidState2.bcast.totalRecipients := by
  refine ⟨?_, by decide⟩
  simp [handleSendBroadcast, runBatches, chunks, claimPending, exDb2, exMidState2,
    effBatchSize, freshRow, Row.isPending, List.insertionSort, List.orderedInsert,
    processRowsInBatch, setRow, sendingWrite, completionWrite, boundaryWrite]

/-- C4 amended: starting from a consistent state, every committed state of a
run keeps totalRecipients unchanged and satisfies
sentCount + failedCount ≤ totalRecipients (indeed
sentCount + failedCount + pendingCount ≤ totalRecipients, with equality only
at counter-write boundaries, not at every point), and the counters never
decrease along the run. -/
theorem conservation_amended (ok : Nat → Bool) (obs : Nat → BroadcastStatus)
    (db : DbState) (hnd : (db.rows.map Row.id).Nodup)
    (hcons : db.bcast.sentCount + db.bcast.failedCount + countPending db.rows
        = db.bcast.totalRecipients) :
    (∀ s ∈ (handleSendBroadcast ok obs db).2,
        s.bcast.totalRecipients = db.bcast.totalRecipients
        ∧ s.bcast.sentCount + s.bcast.failedCount ≤ db.bcast.totalRecipients
        ∧ s.bcast.sentCount + s.bcast.failedCount + countPending s.rows
            ≤ db.bcast.totalRecipients)
    ∧ (handleSendBroadcast ok obs db).2.Pairwise
        (fun s t => s.bcast.sentCount ≤ t.bcast.sentCount
          ∧ s.bcast.failedCount ≤ t.bcast.failedCount) := by
  by_cases hcan : db.bcast.status = .CANCELLED
  · rw [handleSendBroadcast, if_pos hcan]
    constructor
    · intro s hs
      have hsd : s = db := by simpa using hs
      subst hsd
      exact ⟨rfl, by omega, by omega⟩
    · simp
  · rw [handleSendBroadcast_go ok obs db hcan]
    dsimp only
    have hjoin : ((chunks (effBatchSize db.bcast.batchSize)
        (claimPending db.rows)).join) = claimPending db.rows := chunks_join _ _
    have hndb : (((chunks (effBatchSize db.bcast.batchSize)
        (claimPending db.rows)).join).map Row.id).Nodup := by
      rw [hjoin]; exact claimPending_nodup hnd
    have hmem : ∀ r ∈ (chunks (effBatchSize db.bcast.batchSize)
        (claimPending db.rows)).join, r.id ∈ (sendingWrite db).rows.map Row.id := by
      intro r hr
      rw [hjoin] at hr
      exact List.mem_map_of_mem Row.id (claimPending_mem hr).1
    have hpend : ∀ r ∈ (chunks (effBatchSize db.bcast.batchSize)
        (claimPending db.rows)).join,
        rowStatus (sendingWrite db).rows r.id = some .PENDING := by
      intro r hr
      rw [hjoin] at hr
      exact claimPending_rowStatus hnd hr
    have inv := runBatches_invariants ok obs
      (chunks (effBatchSize db.bcast.batchSize) (claimPending db.rows)) 0
      (sendingWrite db) db.bcast.sentCount db.bcast.failedCount rfl rfl hnd hndb hmem hpend
    obtain ⟨⟨i1a, i1b⟩, ⟨i2a, i2b⟩, i3, i4, i5, i6, i7, i8⟩ := inv
    set O := runBatches ok obs
      (chunks (effBatchSize db.bcast.batchSize) (claimPending db.rows)) 0
      (sendingWrite db) db.bcast.sentCount db.bcast.failedCount with hO
    have h0t : (sendingWrite db).bcast.totalRecipients = db.bcast.totalRecipients := rfl
    have h0s : (sendingWrite db).bcast.sentCount = db.bcast.sentCount := rfl
    have h0f : (sendingWrite db).bcast.failedCount = db.bcast.failedCount := rfl
    have h0cp : countPending (sendingWrite db).rows = countPending db.rows := rfl
    have hcw1 : (completionWrite O).bcast.sentCount = O.2.1 := rfl
    have hcw2 : (completionWrite O).bcast.failedCount = O.2.2.1 := rfl
    have hcwt : (completionWrite O).bcast.totalRecipients
        = O.1.bcast.totalRecipients := rfl
    have hcwcp : countPending (completionWrite O).rows = countPending O.1.rows := rfl
    by_cases hflag : O.2.2.2.2 = true
    · rw [if_pos hflag]
      dsimp only
      constructor
      · intro s hs
        rcases List.mem_cons.mp hs with hsd | hs
        · subst hsd
          exact ⟨rfl, by omega, by omega⟩
        rcases List.mem_cons.mp hs with hsd | hs
        · subst hsd
          exact ⟨h0t, by omega, by omega⟩
        rcases List.mem_append.mp hs with hs | hs
        · obtain ⟨f1, f2, f3, f4, f5, f6⟩ := i6 s hs
          exact ⟨f1.trans h0t, by omega, by omega⟩
        · have hsd : s = completionWrite O := List.mem_singleton.mp hs
          subst hsd
          refine ⟨hcwt.trans (i3.trans h0t), by omega, by omega⟩
      · refine List.Pairwise.cons ?_ (List.Pairwise.cons ?_ ?_)
        · intro t ht
          rcases List.mem_cons.mp ht with htd | ht
          · subst htd
            exact ⟨by omega, by omega⟩
          rcases List.mem_append.mp ht with ht | ht
          · obtain ⟨f1, f2, f3, f4, f5, f6⟩ := i6 t ht
            exact ⟨by omega, by omega⟩
          · have htd : t = completionWrite O := List.mem_singleton.mp ht
            subst htd
            exact ⟨by omega, by omega⟩
        · intro t ht
          rcases List.mem_append.mp ht with ht | ht
          · obtain ⟨f1, f2, f3, f4, f5, f6⟩ := i6 t ht
            exact ⟨by omega, by omega⟩
          · have htd : t = completionWrite O := List.mem_singleton.mp ht
            subst htd
            exact ⟨by omega, by omega⟩
        · refine List.pairwise_append.mpr ⟨i7, by simp, ?_⟩
          intro a ha b hb
          obtain ⟨f1, f2, f3, f4, f5, f6⟩ := i6 a ha
          have hbd : b = completionWrite O := List.mem_singleton.mp hb
          subst hbd
          exact ⟨by omega, by omega⟩
    · rw [if_neg hflag]
      dsimp only
      constructor
      · intro s hs
        rcases List.mem_cons.mp hs with hsd | hs
        · subst hsd
          exact ⟨rfl, by omega, by omega⟩
        rcases List.mem_cons.mp hs with hsd | hs
        · subst hsd
          exact ⟨h0t, by omega, by omega⟩
        · obtain ⟨f1, f2, f3, f4, f5, f6⟩ := i6 s hs
          exact ⟨f1.trans h0t, by omega, by omega⟩
      · refine List.Pairwise.cons ?_ (List.Pairwise.cons ?_ i7)
        · intro t ht
          rcases List.mem_cons.mp ht with htd | ht
          · subst htd
            exact ⟨by omega, by omega⟩
          · obtain ⟨f1, f2, f3, f4, f5, f6⟩ := i6 t ht
            exact ⟨by omega, by omega⟩
        · intro t ht
          obtain ⟨f1, f2, f3, f4, f5, f6⟩ := i6 t ht
          exact ⟨by omega, by omega⟩

/-- Witness for C4 amended: in the two-recipient run, the mid-batch committed
state still satisfies the inequality sentCount + failedCount ≤
totalRecipients. -/
theorem conservation_amended_witness :
    exMidState2.bcast.sentCount + exMidState2.bcast.failedCount
      ≤ exDb2.bcast.totalRecipients :=
  ((conservation_amended (fun _ => true) (fun _ => .SENDING) exDb2
      (by decide) (by decide)).1 exMidState2
    (by simp [handleSendBroadcast, runBatches, chunks, claimPending, exDb2, exMidState2,
      effBatchSize, freshRow, Row.isPending, List.insertionSort, List.orderedInsert,
      processRowsInBatch, setRow, sendingWrite, completionWrite, boundaryWrite])).2.1

end WasslChat
